import Mathlib

/-!
# l2MonETH: block-height liveness probe (`main.go`)

A shallow embedding of `getBlockNumber` and `checkSync` from `main.go`,
together with the parts of the Go standard library whose behaviour decides
what these two functions return:

* `fmt.Sscanf(result, "0x%x", &blockNumber)` (package `fmt`, file `scan.go`,
  and `strconv.ParseInt` / `strconv.ParseUint`),
* `fmt.Sprintf("0x%x", blockNumberSecond)` (package `fmt`, file `format.go`,
  `fmtInteger`),
* `http.ResponseWriter` (`WriteHeader`, `Header().Set`, `Write`).

Machine integers are `Int` / `Nat` with explicit wrap-around at 64 bits.
Go strings reaching the scanner come out of `json.Unmarshal`, so they are
valid UTF-8 and are modelled by their sequence of runes (`List Char`).
-/

namespace L2MonETH

/-! ## `fmt.Sscanf` with the format `"0x%x"` into an `int64` -/

/-- Errors that the scan can end with (the `err` result of `fmt.Sscanf`). -/
inductive ScanError
  | unexpectedEOF      -- io.ErrUnexpectedEOF, from `mustReadRune`
  | eof                -- io.EOF, from `notEOF`
  | noMatch            -- "input does not match format"
  | unexpectedNewline  -- "unexpected newline", from `SkipSpace`
  | expectedInteger    -- "expected integer", from `scanNumber`
  | errSyntax          -- strconv.ErrSyntax
  | errRange           -- strconv.ErrRange
  deriving DecidableEq, Repr

/-- The constant `hugeWid = 1 << 30` of `scan.go`: `newScanState` sets
`limit`, `argLimit` and `maxWid` to it, and `ss.ReadRune` reports EOF as soon
as `count >= argLimit`. -/
def hugeWid : Nat := 2 ^ 30

/-- The table `space` of `scan.go` (inclusive ranges of rune values). -/
def space : List (Nat × Nat) :=
  [(0x0009, 0x000d), (0x0020, 0x0020), (0x0085, 0x0085), (0x00a0, 0x00a0),
   (0x1680, 0x1680), (0x2000, 0x200a), (0x2028, 0x2029), (0x202f, 0x202f),
   (0x205f, 0x205f), (0x3000, 0x3000)]

/-- The loop of `isSpace` over the ranges: `if rx < rng[0] return false`,
`if rx <= rng[1] return true`. -/
def isSpaceIn (rx : Nat) : List (Nat × Nat) → Bool
  | [] => false
  | rng :: rest =>
    if rx < rng.1 then false
    else if rx ≤ rng.2 then true
    else isSpaceIn rx rest

/-- Go `isSpace(r rune) bool`. -/
def isSpace (r : Char) : Bool :=
  if r.toNat ≥ 2 ^ 16 then false else isSpaceIn r.toNat space

/-- The rune `\n`. -/
def newline : Char := Char.ofNat 10

/-- The rune `\r`. -/
def carriageReturn : Char := Char.ofNat 13

/-- Go `(*ss).peek(ok)`: is the next rune one of `ok` (nothing is consumed). -/
def peek (ok : List Char) : List Char → Bool
  | [] => false
  | r :: _ => ok.contains r

/-- Go `(*ss).SkipSpace()` with `nlIsSpace = false` (the mode `Sscanf` sets):
skips space runes, fails on a newline, leaves the first non-space rune unread.
The argument and the result are the unread input. -/
def SkipSpace : List Char → Except ScanError (List Char)
  | [] => .ok []
  | r :: rest =>
    if r = carriageReturn ∧ peek [newline] rest = true then SkipSpace rest
    else if r = newline then .error .unexpectedNewline
    else if !isSpace r then .ok (r :: rest)
    else SkipSpace rest

/-- Go `(*ss).advance(format)` on a stretch of the format that holds neither
white space nor a percent sign (in `"0x%x"`: the literal runes `0`, `x` before
the verb). `none` is Go's return value `-1` (a literal did not match the
input); `some input` is the input left once the verb is reached. At the end of
the input `mustReadRune` raises `io.ErrUnexpectedEOF`. -/
def advance : List Char → List Char → Except ScanError (Option (List Char))
  | [], input => .ok (some input)
  | fmtc :: format, input =>
    match input with
    | [] => .error .unexpectedEOF
    | inputc :: rest =>
      if fmtc ≠ inputc then .ok none else advance format rest

/-- The constant `hexadecimalDigits` of `scan.go`. -/
def hexadecimalDigits : List Char := "0123456789aAbBcCdDeEfF".data

/-- The constant `sign` of `scan.go`. -/
def sign : List Char := "+-".data

/-- Go `(*ss).accept(ok)`, i.e. `consume(ok, true)`: when the next rune is one
of `ok` it is moved to the token buffer. Returns the flag, the buffer and the
unread input. -/
def accept (ok : List Char) (buf input : List Char) : Bool × List Char × List Char :=
  match input with
  | [] => (false, buf, [])
  | r :: rest => if ok.contains r then (true, buf ++ [r], rest) else (false, buf, r :: rest)

/-- The loop `for s.accept(digits) {}` of `scanNumber`; returns the token. -/
def acceptAll (ok : List Char) (buf : List Char) : List Char → List Char
  | [] => buf
  | r :: rest => if ok.contains r then acceptAll ok (buf ++ [r]) rest else buf

/-- Go `(*ss).scanNumber(digits, haveDigits = false)`: `notEOF`, one digit is
required ("expected integer"), further digits are accepted; the result is the
token `string(s.buf)`. -/
def scanNumber (digits : List Char) (buf input : List Char) : Except ScanError (List Char) :=
  match input with
  | [] => .error .eof
  | _ :: _ =>
    match accept digits buf input with
    | (false, _, _) => .error .expectedInteger
    | (true, buf, input) => .ok (acceptAll digits buf input)

/-- Go `lower(c byte) byte` of `strconv`: `c | ('x' - 'X')`. -/
def lower (c : Nat) : Nat := c ||| 0x20

/-- The `switch` of the `ParseUint` loop that turns a byte into its digit
value (the case `c == '_' && base0` is dead: the base is 16, not 0). -/
def digitOf (c : Char) : Option Nat :=
  if 0x30 ≤ c.toNat ∧ c.toNat ≤ 0x39 then some (c.toNat - 0x30)
  else if 0x61 ≤ lower c.toNat ∧ lower c.toNat ≤ 0x7a then some (lower c.toNat - 0x61 + 10)
  else none

/-- The digit loop of `strconv.ParseUint(s, base, 64)`: the pair is Go's
`(uint64, error)` result. -/
def parseUintLoop (base cutoff maxVal : Nat) : List Char → Nat → Nat × Option ScanError
  | [], n => (n, none)
  | c :: cs, n =>
    match digitOf c with
    | none => (0, some .errSyntax)
    | some d =>
      if d ≥ base then (0, some .errSyntax)
      else if n ≥ cutoff then (maxVal, some .errRange)
      else
        let n16 := (n * base) % 2 ^ 64
        let n1 := (n16 + d) % 2 ^ 64
        if n1 < n16 ∨ n1 > maxVal then (maxVal, some .errRange)
        else parseUintLoop base cutoff maxVal cs n1

/-- Go `strconv.ParseUint(s, 16, 64)`: `cutoff = maxUint64/16 + 1`,
`maxVal = 1<<64 - 1`. The tokens it receives here consist of ASCII runes. -/
def ParseUint (s : List Char) : Nat × Option ScanError :=
  if s = [] then (0, some .errSyntax)
  else parseUintLoop 16 ((2 ^ 64 - 1) / 16 + 1) (2 ^ 64 - 1) s 0

/-- Conversion to `int64` with wrap-around (two's complement, 64 bits). -/
def wrapInt64 (x : Int) : Int := (x + 2 ^ 63) % 2 ^ 64 - 2 ^ 63

/-- Go `strconv.ParseInt(s, 16, 64)`. -/
def ParseInt (s : List Char) : Except ScanError Int :=
  match s with
  | [] => .error .errSyntax
  | c :: cs =>
    let neg := decide (c = '-')
    let s1 := if c = '+' ∨ c = '-' then cs else c :: cs
    match ParseUint s1 with
    | (_, some .errSyntax) => .error .errSyntax
    | (un, _) =>
      let cutoff := 2 ^ 63
      if !neg ∧ un ≥ cutoff then .error .errRange
      else if neg ∧ un > cutoff then .error .errRange
      else
        let n := wrapInt64 (un : Int)
        .ok (if neg then wrapInt64 (-n) else n)

/-- Go `(*ss).scanInt(verb = 'x', bitSize = 64)`: `SkipSpace`, `notEOF`, base
16 with `hexadecimalDigits`, an optional sign is accepted into the token, then
`scanNumber` and `strconv.ParseInt(tok, 16, 64)`. With `bitSize = 64` the
final overflow test `x != i` never fires. -/
def scanInt (input : List Char) : Except ScanError Int :=
  match SkipSpace input with
  | .error e => .error e
  | .ok [] => .error .eof
  | .ok (r :: rest) =>
    let (_, buf, input) := accept sign [] (r :: rest)
    match scanNumber hexadecimalDigits buf input with
    | .error e => .error e
    | .ok tok => ParseInt tok

/-- Go `(*ss).doScanf("0x%x", [&blockNumber])`: `advance` over the literal
runes, then for the verb `x` (which is not `c`) `SkipSpace` and
`scanOne` = `scanInt`. Input left over after the operand is not looked at. -/
def doScanf (input : List Char) : Except ScanError Int :=
  match advance ['0', 'x'] input with
  | .error e => .error e
  | .ok none => .error .noMatch
  | .ok (some input) =>
    match SkipSpace input with
    | .error e => .error e
    | .ok input => scanInt input

/-- The call `fmt.Sscanf(str, "0x%x", &blockNumber)` of `getBlockNumber`:
`.ok n` when `err == nil` (with `blockNumber = n`), `.error e` otherwise.
Reads beyond `hugeWid` runes report EOF, so only the first `hugeWid` runes of
`str` are visible to the scan. -/
def Sscanf (str : String) : Except ScanError Int :=
  doScanf (str.data.take hugeWid)

/-! ## `fmt.Sprintf("0x%x", v)` for an `int64` -/

/-- The constant `ldigits` of `fmt`. -/
def ldigits : List Char := "0123456789abcdefx".data

/-- The base-16 loop of `fmtInteger`, writing right to left into `buf`:
`for u >= 16 { i--; buf[i] = digits[u&0xF]; u >>= 4 }; i--; buf[i] = digits[u]`.
The first argument bounds the number of iterations by the size of `intbuf`
(68 bytes); a `uint64` needs at most 16. -/
def fmtHex : Nat → Nat → List Char → List Char
  | 0, _, acc => acc
  | i + 1, u, acc =>
    if u ≥ 16 then fmtHex i (u / 16) (ldigits.getD (u % 16) '0' :: acc)
    else ldigits.getD u '0' :: acc

/-- Go `(*fmt).fmtInteger(u, 16, isSigned = true, 'x', ldigits)` without
flags, width or precision: a minus sign for a negative value, then the digits
of the magnitude `-u` (computed in `uint64`). -/
def fmtInteger (v : Int) : List Char :=
  let u : Nat := (v % 2 ^ 64).toNat
  let negative := decide (v < 0)
  let u := if negative then (2 ^ 64 - u) % 2 ^ 64 else u
  let digits := fmtHex 68 u []
  if negative then '-' :: digits else digits

/-- The call `fmt.Sprintf("0x%x", v)` of `checkSync` for an `int64` `v`. -/
def Sprintf (v : Int) : String := ⟨'0' :: 'x' :: fmtInteger v⟩

/-! ## The RPC client `getBlockNumber` -/

/-- Go `type BlockNumberResponse struct` of `main.go`. -/
structure BlockNumberResponse where
  JSONRPC : String
  ID : Int
  Result : String
  deriving DecidableEq, Repr

/-- What one call of `http.Post` hands back to `getBlockNumber`, as far as
`getBlockNumber` looks at it: an error (`postFailed`), or the response the
client finally returns, with its status code, whose body cannot be read
(`readFailed`, `io.ReadAll` fails), is read but rejected by `json.Unmarshal`
(`badJSON`), or is read and unmarshalled into a `BlockNumberResponse`
(`envelope`; the body `\x7b"jsonrpc":"2.0","id":1,"result":"0x64"\x7d` is
`envelope code ⟨"2.0", 1, "0x64"⟩`). `encoding/json` is not part of the
repository: its verdict on the body is part of the answer. What the client
does on its own before it returns (following a redirect, dropping the body of
a status that allows none) has already happened: see `Exchange.handedOver`
for the answers that reach the caller as the endpoint sent them. -/
inductive Exchange
  | postFailed
  | readFailed (StatusCode : Nat)
  | badJSON (StatusCode : Nat)
  | envelope (StatusCode : Nat) (blockNumberResp : BlockNumberResponse)
  deriving DecidableEq, Repr

/-- The network seen from the handler: what `http.Post` returns for the `k`-th
POST of the request (counted from 0) when it is sent to the URL `rpc`. -/
abbrev World := Nat → String → Exchange

/-- Effects of one request on the outside: the targets of the POSTs sent so
far (oldest first) and the seconds spent in `time.Sleep`. Diagnostic output
(`fmt.Println`) is not recorded. -/
structure Effects where
  posts : List String
  slept : Nat
  deriving DecidableEq, Repr

/-- The `error` values `getBlockNumber` can return. -/
inductive RPCError
  | post                      -- "Error sending request"
  | read                      -- "Error reading response"
  | unmarshal                 -- "Error unmarshalling response"
  | scan (e : ScanError)      -- "Error converting hex to decimal"
  deriving DecidableEq, Repr

/-- The URL substituted for an empty `rpcURL`. -/
def defaultRPC : String := "http://127.0.0.1:8545"

/-- Go `getBlockNumber(rpcURL string) (int64, error)`. `json.Marshal` of the
fixed payload cannot fail, so its error branch is left out; the random `id`
and the time stamp only reach the diagnostic output. The status code of the
response is never read by the source. -/
def getBlockNumber (world : World) (rpcURL : String) (fx : Effects) :
    Except RPCError Int × Effects :=
  let rpc := if rpcURL = "" then defaultRPC else rpcURL
  let resp := world fx.posts.length rpc
  let fx := { fx with posts := fx.posts ++ [rpc] }
  match resp with
  | .postFailed => (.error .post, fx)
  | .readFailed _ => (.error .read, fx)
  | .badJSON _ => (.error .unmarshal, fx)
  | .envelope _ blockNumberResp =>
    match Sscanf blockNumberResp.Result with
    | .error e => (.error (.scan e), fx)
    | .ok blockNumber => (.ok blockNumber, fx)

/-! ## The handler `checkSync` -/

/-- An `http.ResponseWriter` as explicit state: the header map the handler
edits through `Header()`, the status code once `WriteHeader` has been called,
the headers as they stood at that call (those are the ones sent), and the body
bytes written. -/
structure ResponseWriter where
  header : List (String × String)
  status : Option Nat
  sent : List (String × String)
  body : String
  deriving DecidableEq, Repr

namespace ResponseWriter

/-- The writer a handler is given. -/
def fresh : ResponseWriter := ⟨[], none, [], ""⟩

/-- Go `w.WriteHeader(code)`: the first call fixes the status code and the
headers to send; later calls change nothing. -/
def WriteHeader (w : ResponseWriter) (code : Nat) : ResponseWriter :=
  match w.status with
  | some _ => w
  | none => { w with status := some code, sent := w.header }

/-- Go `w.Header().Set(key, value)`: edits the header map only. -/
def HeaderSet (w : ResponseWriter) (key value : String) : ResponseWriter :=
  { w with header := (key, value) :: w.header.filter (fun kv => kv.1 ≠ key) }

/-- Go `w.Write(data)`: calls `WriteHeader(200)` when no status code has been
written yet, then appends to the body. -/
def Write (w : ResponseWriter) (data : String) : ResponseWriter :=
  let w := if w.status.isNone then w.WriteHeader 200 else w
  { w with body := w.body ++ data }

end ResponseWriter

/-- Go `type BlockResponse struct` of `main.go`. -/
structure BlockResponse where
  BlockNumberHex : String
  BlockNumberDecimal : Int
  Status : String
  deriving DecidableEq, Repr

/-- A JSON string literal as `encoding/json` writes it for a value without
characters that need an escape (the values here are made of `0x`, a sign, hex
digits, and the two status words). -/
def jsonString (s : String) : String := "\"" ++ s ++ "\""

/-- A JSON number as `encoding/json` writes an `int64`: decimal, with a minus
sign for a negative value. -/
def jsonInt (v : Int) : String :=
  if v < 0 then "-" ++ Nat.repr (-v).toNat else Nat.repr v.toNat

/-- Go `json.NewEncoder(w).Encode(response)` for a `BlockResponse`: the fields
in declaration order under their `json` tags, followed by a newline. -/
def encode (response : BlockResponse) : String :=
  "\x7b\"block_number_hex\":" ++ jsonString response.BlockNumberHex ++
  ",\"block_number_decimal\":" ++ jsonInt response.BlockNumberDecimal ++
  ",\"status\":" ++ jsonString response.Status ++ "\x7d\n"

/-- Go `url.Values`: the values of each query parameter, in order. -/
abbrev Values := String → List String

/-- Go `(url.Values).Get(key)`: the first value of `key`, or `""`. -/
def Values.Get (v : Values) (key : String) : String := (v key).headD ""

/-- An `*http.Request`, as far as the handler reads it: `r.URL.Query()`. -/
structure Request where
  Query : Values

/-- Go `time.Sleep(d)`, with `d` in seconds. -/
def sleep (seconds : Nat) (fx : Effects) : Effects :=
  { fx with slept := fx.slept + seconds }

/-- Go `checkSync(w http.ResponseWriter, r *http.Request)`. -/
def checkSync (world : World) (w : ResponseWriter) (r : Request) (fx : Effects) :
    ResponseWriter × Effects :=
  let rpcURL := r.Query.Get "rpc"
  match getBlockNumber world rpcURL fx with
  | (.error _, fx) => (w.WriteHeader 500, fx)
  | (.ok blockNumberFirst, fx) =>
    let fx := sleep 30 fx
    match getBlockNumber world rpcURL fx with
    | (.error _, fx) => (w.WriteHeader 500, fx)
    | (.ok blockNumberSecond, fx) =>
      let blockNumber := wrapInt64 (blockNumberSecond - blockNumberFirst)
      let response : BlockResponse :=
        { BlockNumberHex := Sprintf blockNumberSecond,
          BlockNumberDecimal := blockNumberSecond,
          Status := "" }
      let (response, w) :=
        if blockNumber ≠ 0 then
          ({ response with Status := "synced" }, w.WriteHeader 200)
        else
          ({ response with Status := "not_synced" }, w.WriteHeader 500)
      let w := w.HeaderSet "Content-Type" "application/json"
      let w := w.Write (encode response)
      (w, fx)

/-- One request served from scratch: a fresh writer, nothing sent yet. -/
def serve (world : World) (r : Request) : ResponseWriter × Effects :=
  checkSync world ResponseWriter.fresh r ⟨[], 0⟩

/-- A node that answers the `k`-th POST with status 200 and the `k`-th of the
given `result` strings (and refuses the connection once they are used up). -/
def nodeAnswering (results : List String) : World :=
  fun k _ => match results.get? k with
    | some res => .envelope 200 ⟨"2.0", 1, res⟩
    | none => .postFailed

/-- A request without query parameters. -/
def plainRequest : Request := ⟨fun _ => []⟩

/-! ## Vocabulary of the statements -/

/-- The result of the first `getBlockNumber` call of `checkSync` when the
request is served from scratch. -/
def firstSample (world : World) (r : Request) : Except RPCError Int :=
  (getBlockNumber world (r.Query.Get "rpc") ⟨[], 0⟩).1

/-- The result of the second `getBlockNumber` call of `checkSync` (made after
the first call and the wait) when the request is served from scratch. -/
def secondSample (world : World) (r : Request) : Except RPCError Int :=
  (getBlockNumber world (r.Query.Get "rpc")
    (sleep 30 (getBlockNumber world (r.Query.Get "rpc") ⟨[], 0⟩).2)).1

/-- Go `bodyAllowedForStatus(status)` of `net/http`: a response with status
1xx, 204 or 304 carries no body. -/
def bodyAllowedForStatus (status : Nat) : Bool :=
  if 100 ≤ status ∧ status ≤ 199 then false
  else if status = 204 then false
  else if status = 304 then false
  else true

/-- The status codes of the `switch` in `redirectBehavior` of `net/http`: on
these the client may send a further request instead of returning the
response. -/
def redirectStatus (status : Nat) : Bool :=
  status = 301 ∨ status = 302 ∨ status = 303 ∨ status = 307 ∨ status = 308

/-- The answers that reach `getBlockNumber` exactly as the endpoint sent them,
whatever their headers: the status is not one the client may redirect on, and
a body that was read from the response belongs to a status that allows one. -/
def Exchange.handedOver : Exchange → Bool
  | .postFailed => true
  | .readFailed code => !redirectStatus code && bodyAllowedForStatus code
  | .badJSON code => !redirectStatus code
  | .envelope code _ => !redirectStatus code && bodyAllowedForStatus code

/-- A node that answers every POST with `404 Not Found` and an envelope
carrying the given `result`. -/
def nodeAnswering404 (result : String) : World :=
  fun _ _ => .envelope 404 ⟨"2.0", 1, result⟩

/-- A request whose query holds `rpc=<url>`. -/
def requestFor (url : String) : Request :=
  ⟨fun key => if key = "rpc" then [url] else []⟩

/-- The POST target the specification prescribes: the value of the `rpc`
query parameter when it is present and non-empty, `http://127.0.0.1:8545`
when it is absent or empty. -/
def postTarget (r : Request) : String :=
  match r.Query "rpc" with
  | [] => "http://127.0.0.1:8545"
  | value :: _ => if value = "" then "http://127.0.0.1:8545" else value

/-- The characters the specification calls hexadecimal digits. -/
def hexDigitChars : List Char := "0123456789abcdefABCDEF".data

/-- The value of one hexadecimal digit: `0`-`9` are 0-9, `a`-`f` and `A`-`F`
are 10-15. -/
def hexDigitValue (c : Char) : Nat :=
  if c.isDigit then c.toNat - 48
  else if c.isLower then c.toNat - 87
  else c.toNat - 55

/-- The number written by the digits `ds` in base 16 when `n` is the number
written by the digits read before them. -/
def hexValueFrom : Nat → List Char → Nat
  | n, [] => n
  | n, c :: cs => hexValueFrom (16 * n + hexDigitValue c) cs

/-- The numeric value of a string of hexadecimal digits (most significant
digit first). -/
def hexValue (ds : List Char) : Nat := hexValueFrom 0 ds

/-- Removal of leading zeros; the last digit stays, so that zero keeps the
numeral `0`. -/
def stripLeadingZeros : List Char → List Char
  | [] => []
  | [c] => [c]
  | c :: d :: ds => if c = '0' then stripLeadingZeros (d :: ds) else c :: d :: ds

/-- The numeral the specification expects for `block_number_hex`, extended to
negative heights: `0x`, a minus sign for a negative height, and the lowercase
base-16 digits of the magnitude without leading zeros. -/
def hexNumeral (v : Int) : String :=
  ⟨'0' :: 'x' :: ((if v < 0 then ['-'] else []) ++ Nat.toDigits 16 v.natAbs)⟩

/-- A number where the decoder looks for it: at most one sign, then a
hexadecimal digit (whatever follows that digit). -/
def numberAhead : List Char → Bool
  | [] => false
  | c :: tl =>
    if c = '+' ∨ c = '-' then
      match tl with
      | [] => false
      | d :: _ => decide (d ∈ hexDigitChars)
    else decide (c ∈ hexDigitChars)

/-- The shape of a `result` that holds a hex number: `0x`, then any white
space, then at most one sign, then a hexadecimal digit. -/
def startsWithHexNumber : List Char → Bool
  | '0' :: 'x' :: rest => numberAhead (rest.dropWhile isSpace)
  | _ => false

deriving instance DecidableEq for Except

/-! ## Basic facts -/

theorem wrapInt64_range (x : Int) : -2 ^ 63 ≤ wrapInt64 x ∧ wrapInt64 x < 2 ^ 63 := by
  unfold wrapInt64
  omega

theorem wrapInt64_of_range (x : Int) (h : -2 ^ 63 ≤ x ∧ x < 2 ^ 63) : wrapInt64 x = x := by
  unfold wrapInt64
  omega

theorem wrapInt64_sub_eq_zero (a b : Int) (ha : -2 ^ 63 ≤ a ∧ a < 2 ^ 63)
    (hb : -2 ^ 63 ≤ b ∧ b < 2 ^ 63) : wrapInt64 (b - a) = 0 ↔ b = a := by
  unfold wrapInt64
  omega

theorem ParseInt_range (tok : List Char) (v : Int) (h : ParseInt tok = .ok v) :
    -2 ^ 63 ≤ v ∧ v < 2 ^ 63 := by
  unfold ParseInt at h
  split at h
  · cases h
  · simp only at h
    split at h
    · cases h
    · split at h
      · cases h
      · split at h
        · cases h
        · injection h with h
          subst h
          split
          · exact wrapInt64_range _
          · exact wrapInt64_range _

theorem scanInt_range (input : List Char) (v : Int) (h : scanInt input = .ok v) :
    -2 ^ 63 ≤ v ∧ v < 2 ^ 63 := by
  unfold scanInt at h
  split at h
  · cases h
  · cases h
  · simp only at h
    split at h
    · cases h
    · exact ParseInt_range _ _ h

theorem doScanf_range (input : List Char) (v : Int) (h : doScanf input = .ok v) :
    -2 ^ 63 ≤ v ∧ v < 2 ^ 63 := by
  unfold doScanf at h
  split at h
  · cases h
  · cases h
  · split at h
    · cases h
    · exact scanInt_range _ _ h

theorem Sscanf_range (str : String) (v : Int) (h : Sscanf str = .ok v) :
    -2 ^ 63 ≤ v ∧ v < 2 ^ 63 :=
  doScanf_range _ _ h

theorem getBlockNumber_effects (world : World) (rpcURL : String) (fx : Effects) :
    (getBlockNumber world rpcURL fx).2 =
      ⟨fx.posts ++ [if rpcURL = "" then defaultRPC else rpcURL], fx.slept⟩ := by
  unfold getBlockNumber
  simp only
  split
  · rfl
  · rfl
  · rfl
  · split <;> rfl

theorem getBlockNumber_range (world : World) (rpcURL : String) (fx : Effects) (v : Int)
    (h : (getBlockNumber world rpcURL fx).1 = .ok v) : -2 ^ 63 ≤ v ∧ v < 2 ^ 63 := by
  unfold getBlockNumber at h
  simp only at h
  split at h
  · cases h
  · cases h
  · cases h
  · split at h
    · cases h
    · rename_i hs
      injection h with h
      subst h
      exact Sscanf_range _ _ hs

/-- What `serve` returns when the first sample fails. -/
theorem serve_first_error (world : World) (r : Request) (e : RPCError)
    (h : firstSample world r = .error e) :
    serve world r =
      (⟨[], some 500, [], ""⟩,
       ⟨[if r.Query.Get "rpc" = "" then defaultRPC else r.Query.Get "rpc"], 0⟩) := by
  have hfx := getBlockNumber_effects world (r.Query.Get "rpc") ⟨[], 0⟩
  unfold firstSample at h
  unfold serve checkSync
  simp only
  rcases hg : getBlockNumber world (r.Query.Get "rpc") ⟨[], 0⟩ with ⟨res, fx⟩
  rw [hg] at h hfx
  simp only at h hfx
  subst h
  subst hfx
  rfl

/-- What `serve` returns when the first sample succeeds and the second fails. -/
theorem serve_second_error (world : World) (r : Request) (h1 : Int) (e : RPCError)
    (hfirst : firstSample world r = .ok h1) (hsecond : secondSample world r = .error e) :
    serve world r =
      (⟨[], some 500, [], ""⟩,
       ⟨[if r.Query.Get "rpc" = "" then defaultRPC else r.Query.Get "rpc",
         if r.Query.Get "rpc" = "" then defaultRPC else r.Query.Get "rpc"], 30⟩) := by
  have hfx := getBlockNumber_effects world (r.Query.Get "rpc") ⟨[], 0⟩
  unfold firstSample at hfirst
  unfold secondSample at hsecond
  unfold serve checkSync
  simp only
  rcases hg : getBlockNumber world (r.Query.Get "rpc") ⟨[], 0⟩ with ⟨res, fx⟩
  rw [hg] at hfirst hfx hsecond
  simp only at hfirst hfx hsecond
  subst hfirst
  subst hfx
  simp only
  have hfx2 := getBlockNumber_effects world (r.Query.Get "rpc")
    (sleep 30 ⟨[] ++ [if r.Query.Get "rpc" = "" then defaultRPC else r.Query.Get "rpc"], 0⟩)
  rcases hg2 : getBlockNumber world (r.Query.Get "rpc")
    (sleep 30 ⟨[] ++ [if r.Query.Get "rpc" = "" then defaultRPC else r.Query.Get "rpc"], 0⟩)
    with ⟨res2, fx2⟩
  rw [hg2] at hsecond hfx2
  simp only at hsecond hfx2
  subst hsecond
  subst hfx2
  rfl

/-- What `serve` returns when both samples succeed. -/
theorem serve_both_ok (world : World) (r : Request) (h1 h2 : Int)
    (hfirst : firstSample world r = .ok h1) (hsecond : secondSample world r = .ok h2) :
    serve world r =
      (⟨[("Content-Type", "application/json")],
        some (if h2 = h1 then 500 else 200), [],
        encode ⟨Sprintf h2, h2, if h2 = h1 then "not_synced" else "synced"⟩⟩,
       ⟨[if r.Query.Get "rpc" = "" then defaultRPC else r.Query.Get "rpc",
         if r.Query.Get "rpc" = "" then defaultRPC else r.Query.Get "rpc"], 30⟩) := by
  have hfx := getBlockNumber_effects world (r.Query.Get "rpc") ⟨[], 0⟩
  have hr1 := getBlockNumber_range world (r.Query.Get "rpc") ⟨[], 0⟩ h1 hfirst
  unfold firstSample at hfirst
  have hr2 := getBlockNumber_range world (r.Query.Get "rpc") _ h2 hsecond
  unfold secondSample at hsecond
  unfold serve checkSync
  simp only
  rcases hg : getBlockNumber world (r.Query.Get "rpc") ⟨[], 0⟩ with ⟨res, fx⟩
  rw [hg] at hfirst hfx hsecond
  simp only at hfirst hfx hsecond
  subst hfirst
  subst hfx
  simp only
  have hfx2 := getBlockNumber_effects world (r.Query.Get "rpc")
    (sleep 30 ⟨[] ++ [if r.Query.Get "rpc" = "" then defaultRPC else r.Query.Get "rpc"], 0⟩)
  rcases hg2 : getBlockNumber world (r.Query.Get "rpc")
    (sleep 30 ⟨[] ++ [if r.Query.Get "rpc" = "" then defaultRPC else r.Query.Get "rpc"], 0⟩)
    with ⟨res2, fx2⟩
  rw [hg2] at hsecond hfx2
  simp only at hsecond hfx2
  subst hsecond
  subst hfx2
  simp only
  have hz := wrapInt64_sub_eq_zero h1 h2 hr1 hr2
  by_cases heq : h2 = h1
  · have h0 : wrapInt64 (h2 - h1) = 0 := hz.mpr heq
    simp only [h0, ne_eq, not_true_eq_false, if_false]
    simp only [heq, if_true]
    rfl
  · have h0 : wrapInt64 (h2 - h1) ≠ 0 := fun hc => heq (hz.mp hc)
    simp only [h0, ne_eq, not_false_eq_true, if_true]
    simp only [heq, if_false]
    rfl

theorem postTarget_eq (r : Request) :
    (if r.Query.Get "rpc" = "" then defaultRPC else r.Query.Get "rpc") = postTarget r := by
  unfold postTarget Values.Get defaultRPC
  cases r.Query "rpc" <;> simp

/-! ## The verdict of `checkSync` -/

/-- C1: when both `getBlockNumber` calls succeed with heights `h1` then `h2`,
`checkSync` answers 200 with status "synced" if `h2` differs from `h1` (in
either direction) and 500 with status "not_synced" if `h2 = h1`; the
subtraction wrapping around in `int64` does not change this. -/
theorem checkSync_verdict (world : World) (r : Request) (h1 h2 : Int)
    (hfirst : firstSample world r = .ok h1) (hsecond : secondSample world r = .ok h2) :
    (h2 ≠ h1 → (serve world r).1.status = some 200 ∧
        (serve world r).1.body = encode ⟨Sprintf h2, h2, "synced"⟩) ∧
    (h2 = h1 → (serve world r).1.status = some 500 ∧
        (serve world r).1.body = encode ⟨Sprintf h2, h2, "not_synced"⟩) := by
  rw [serve_both_ok world r h1 h2 hfirst hsecond]
  constructor
  · intro hne
    simp only [hne, if_false, and_self]
  · intro heq
    simp only [heq, if_true, and_self]

/-- C1 at two concrete sample pairs: the extreme heights -2^63 and 2^63-1, whose
difference wraps around, and the equal heights 100 and 100. -/
theorem checkSync_verdict_witness :
    (serve (nodeAnswering ["0x-8000000000000000", "0x7fffffffffffffff"]) plainRequest).1.status
        = some 200 ∧
    (serve (nodeAnswering ["0x64", "0x64"]) plainRequest).1.status = some 500 :=
  ⟨((checkSync_verdict (nodeAnswering ["0x-8000000000000000", "0x7fffffffffffffff"])
      plainRequest (-9223372036854775808) 9223372036854775807
      (by decide) (by decide)).1 (by decide)).1,
   ((checkSync_verdict (nodeAnswering ["0x64", "0x64"]) plainRequest 100 100
      (by decide) (by decide)).2 rfl).1⟩

/-- C2: when the first or the second `getBlockNumber` call returns an error,
`checkSync` answers 500 and writes no body; when the first call fails, no
second POST is made (and the handler does not wait). -/
theorem checkSync_sample_failure (world : World) (r : Request)
    (h : (∃ e, firstSample world r = .error e) ∨ (∃ e, secondSample world r = .error e)) :
    (serve world r).1.status = some 500 ∧ (serve world r).1.body = "" ∧
    ((∃ e, firstSample world r = .error e) →
      (serve world r).2.posts.length = 1 ∧ (serve world r).2.slept = 0) := by
  cases hf : firstSample world r with
  | error e1 =>
    rw [serve_first_error world r e1 hf]
    exact ⟨rfl, rfl, fun _ => ⟨rfl, rfl⟩⟩
  | ok v1 =>
    rcases h with ⟨e, he⟩ | ⟨e, he⟩
    · rw [hf] at he
      cases he
    · rw [serve_second_error world r v1 e hf he]
      refine ⟨rfl, rfl, ?_⟩
      rintro ⟨e1, he1⟩
      cases he1

/-- C2 at two concrete nodes: one whose first `result` is `not_a_hex_number`,
and one that answers the first POST and refuses the second. -/
theorem checkSync_sample_failure_witness :
    ((serve (nodeAnswering ["not_a_hex_number", "0x65"]) plainRequest).1.status = some 500 ∧
     (serve (nodeAnswering ["not_a_hex_number", "0x65"]) plainRequest).1.body = "") ∧
    ((serve (nodeAnswering ["0x64"]) plainRequest).1.status = some 500 ∧
     (serve (nodeAnswering ["0x64"]) plainRequest).1.body = "") :=
  ⟨⟨(checkSync_sample_failure (nodeAnswering ["not_a_hex_number", "0x65"]) plainRequest
      (Or.inl ⟨.scan .noMatch, by decide⟩)).1,
    (checkSync_sample_failure (nodeAnswering ["not_a_hex_number", "0x65"]) plainRequest
      (Or.inl ⟨.scan .noMatch, by decide⟩)).2.1⟩,
   ⟨(checkSync_sample_failure (nodeAnswering ["0x64"]) plainRequest
      (Or.inr ⟨.post, by decide⟩)).1,
    (checkSync_sample_failure (nodeAnswering ["0x64"]) plainRequest
      (Or.inr ⟨.post, by decide⟩)).2.1⟩⟩

/-- C5 (the code departs from it): no response of `checkSync` is sent with a
`Content-Type` header. The handler calls `WriteHeader` before
`Header().Set("Content-Type", "application/json")`, so the headers fixed by
`WriteHeader` are empty and the later `Set` only reaches the header map. -/
theorem checkSync_sent_headers_empty (world : World) (r : Request) :
    (serve world r).1.sent = [] ∧
    (serve (nodeAnswering ["0x64", "0x65"]) plainRequest).1 =
      ⟨[("Content-Type", "application/json")], some 200, [],
       "\x7b\"block_number_hex\":\"0x65\",\"block_number_decimal\":101,\"status\":\"synced\"\x7d\n"⟩ := by
  refine ⟨?_, by decide⟩
  cases hf : firstSample world r with
  | error e1 => rw [serve_first_error world r e1 hf]
  | ok v1 =>
    cases hs : secondSample world r with
    | error e2 => rw [serve_second_error world r v1 e2 hf hs]
    | ok v2 => rw [serve_both_ok world r v1 v2 hf hs]

/-- C6: every POST of one `checkSync` request goes to the same target, the
`rpc` query parameter when it is present and non-empty and
`http://127.0.0.1:8545` otherwise; when the first call succeeds there are
exactly two POSTs, both to that target. -/
theorem checkSync_post_targets (world : World) (r : Request) :
    ((serve world r).2.posts = [postTarget r] ∨
      (serve world r).2.posts = [postTarget r, postTarget r]) ∧
    (∀ h1, firstSample world r = .ok h1 →
      (serve world r).2.posts = [postTarget r, postTarget r]) := by
  cases hf : firstSample world r with
  | error e1 =>
    rw [serve_first_error world r e1 hf, postTarget_eq]
    exact ⟨Or.inl rfl, fun h1 hc => by cases hc⟩
  | ok v1 =>
    cases hs : secondSample world r with
    | error e2 =>
      rw [serve_second_error world r v1 e2 hf hs, postTarget_eq]
      exact ⟨Or.inr rfl, fun _ _ => rfl⟩
    | ok v2 =>
      rw [serve_both_ok world r v1 v2 hf hs, postTarget_eq]
      exact ⟨Or.inr rfl, fun _ _ => rfl⟩

/-! ## `getBlockNumber` and the HTTP status code -/

/-- C4 fails as stated: a node answering 404 with the body
`\x7b"jsonrpc":"2.0","id":1,"result":"0x64"\x7d` makes `getBlockNumber` return
100 without error, and `checkSync` then writes a JSON body. -/
theorem getBlockNumber_accepts_404 :
    (getBlockNumber (nodeAnswering404 "0x64") "" ⟨[], 0⟩).1 = .ok 100 ∧
    (serve (nodeAnswering404 "0x64") plainRequest).1.body =
      "\x7b\"block_number_hex\":\"0x64\",\"block_number_decimal\":100,\"status\":\"not_synced\"\x7d\n" := by
  decide

/-- C4 as amended: `getBlockNumber` does not check the status code. A response
with an error status (400 to 599) reaches it as the endpoint sent it, and the
call returns what it returns for a 200 response with the same body: an error
when the body cannot be read or is rejected by the JSON decoder, and otherwise
the verdict of the hex decoder on `result`. -/
theorem getBlockNumber_error_status (world : World) (rpcURL : String) (fx : Effects)
    (code : Nat) (hcode : 400 ≤ code ∧ code ≤ 599) :
    (world fx.posts.length (if rpcURL = "" then defaultRPC else rpcURL) = .readFailed code →
      (Exchange.readFailed code).handedOver = true ∧
      (getBlockNumber world rpcURL fx).1 = .error .read) ∧
    (world fx.posts.length (if rpcURL = "" then defaultRPC else rpcURL) = .badJSON code →
      (Exchange.badJSON code).handedOver = true ∧
      (getBlockNumber world rpcURL fx).1 = .error .unmarshal) ∧
    ∀ resp, world fx.posts.length (if rpcURL = "" then defaultRPC else rpcURL) =
        .envelope code resp →
      (Exchange.envelope code resp).handedOver = true ∧
      getBlockNumber world rpcURL fx =
        getBlockNumber (fun _ _ => .envelope 200 resp) rpcURL fx ∧
      ∀ v, (getBlockNumber world rpcURL fx).1 = .ok v ↔ Sscanf resp.Result = .ok v := by
  have hred : redirectStatus code = false := by
    simp only [redirectStatus, decide_eq_false_iff_not]
    omega
  have hbody : bodyAllowedForStatus code = true := by
    unfold bodyAllowedForStatus
    rw [if_neg (by omega), if_neg (by omega), if_neg (by omega)]
  refine ⟨?_, ?_, ?_⟩
  · intro hw
    refine ⟨by simp [Exchange.handedOver, hred, hbody], ?_⟩
    unfold getBlockNumber
    simp only [hw]
  · intro hw
    refine ⟨by simp [Exchange.handedOver, hred], ?_⟩
    unfold getBlockNumber
    simp only [hw]
  · intro resp hw
    refine ⟨by simp [Exchange.handedOver, hred, hbody], ?_, ?_⟩
    · unfold getBlockNumber
      simp only [hw]
    · intro v
      unfold getBlockNumber
      simp only [hw]
      cases hs : Sscanf resp.Result with
      | error e => simp
      | ok n => simp

/-- C4 as amended, at a node answering 404 with `result` = `0x65`. -/
theorem getBlockNumber_error_status_witness :
    (Exchange.envelope 404 ⟨"2.0", 1, "0x65"⟩).handedOver = true ∧
    getBlockNumber (nodeAnswering404 "0x65") "" ⟨[], 0⟩ =
      getBlockNumber (fun _ _ => .envelope 200 ⟨"2.0", 1, "0x65"⟩) "" ⟨[], 0⟩ :=
  ⟨((getBlockNumber_error_status (nodeAnswering404 "0x65") "" ⟨[], 0⟩ 404
      (by decide)).2.2 ⟨"2.0", 1, "0x65"⟩ rfl).1,
   ((getBlockNumber_error_status (nodeAnswering404 "0x65") "" ⟨[], 0⟩ 404
      (by decide)).2.2 ⟨"2.0", 1, "0x65"⟩ rfl).2.1⟩

/-! ## The hex decoder -/

theorem hexDigit_facts : ∀ c ∈ hexDigitChars,
    digitOf c = some (hexDigitValue c) ∧ hexDigitValue c < 16 ∧
    hexadecimalDigits.contains c = true ∧ sign.contains c = false ∧
    ldigits.getD (hexDigitValue c) '0' = c.toLower ∧
    (hexDigitValue c = 0 ↔ c = '0') := by
  decide

theorem contains_iff_mem (ok : List Char) (c : Char) : ok.contains c = true ↔ c ∈ ok :=
  List.elem_iff

theorem hexadecimalDigits_sub : ∀ c ∈ hexadecimalDigits, c ∈ hexDigitChars := by
  decide

theorem hexDigitChars_sub : ∀ c ∈ hexDigitChars, c ∈ hexadecimalDigits := by
  decide

theorem contains_hexadecimalDigits (c : Char) :
    hexadecimalDigits.contains c = true ↔ c ∈ hexDigitChars :=
  (contains_iff_mem _ c).trans ⟨hexadecimalDigits_sub c, hexDigitChars_sub c⟩

theorem ldigit_facts : ∀ k ∈ List.range 16,
    ldigits.getD k '0' ∈ hexDigitChars ∧ hexDigitValue (ldigits.getD k '0') = k ∧
    ldigits.getD k '0' = Nat.digitChar k := by
  decide

theorem take_hugeWid_of_le (l : List Char) (h : l.length ≤ hugeWid) :
    l.take hugeWid = l :=
  List.take_of_length_le h

theorem nonspace_facts : ∀ c ∈ hexDigitChars ++ sign,
    isSpace c = false := by
  decide

theorem isSpace_newline : isSpace newline = true := by decide

theorem isSpace_carriageReturn : isSpace carriageReturn = true := by decide

theorem SkipSpace_nonspace (c : Char) (l : List Char) (h : isSpace c = false) :
    SkipSpace (c :: l) = .ok (c :: l) := by
  have h1 : c ≠ carriageReturn := by
    intro hc
    rw [hc, isSpace_carriageReturn] at h
    cases h
  have h2 : c ≠ newline := by
    intro hc
    rw [hc, isSpace_newline] at h
    cases h
  simp [SkipSpace, h1, h2, h]

theorem SkipSpace_mem (input out : List Char) (h : SkipSpace input = .ok out) :
    ∀ c ∈ out, c ∈ input := by
  induction input with
  | nil =>
    simp only [SkipSpace, Except.ok.injEq] at h
    subst h
    intro c hc
    exact hc
  | cons r rest ih =>
    unfold SkipSpace at h
    split at h
    · intro c hc
      exact List.mem_cons_of_mem _ (ih h c hc)
    · split at h
      · cases h
      · split at h
        · injection h with h
          subst h
          intro c hc
          exact hc
        · intro c hc
          exact List.mem_cons_of_mem _ (ih h c hc)

theorem acceptAll_all (ok buf ds rest : List Char) (hall : ∀ c ∈ ds, c ∈ ok)
    (hrest : ∀ c tl, rest = c :: tl → c ∉ ok) :
    acceptAll ok buf (ds ++ rest) = buf ++ ds := by
  induction ds generalizing buf with
  | nil =>
    cases rest with
    | nil => simp [acceptAll]
    | cons c tl =>
      have hc : ¬ (ok.contains c = true) := fun hcon =>
        hrest c tl rfl ((contains_iff_mem ok c).mp hcon)
      show acceptAll ok buf (c :: tl) = buf ++ []
      unfold acceptAll
      rw [if_neg hc, List.append_nil]
  | cons d ds ih =>
    have hd : ok.contains d = true := (contains_iff_mem ok d).mpr (hall d (List.mem_cons_self _ _))
    show acceptAll ok buf (d :: (ds ++ rest)) = buf ++ d :: ds
    unfold acceptAll
    rw [if_pos hd, ih (buf ++ [d]) (fun c hc => hall c (List.mem_cons_of_mem _ hc))]
    simp

theorem acceptAll_extends (ok buf input : List Char) :
    ∃ t, acceptAll ok buf input = buf ++ t := by
  induction input generalizing buf with
  | nil => exact ⟨[], by simp [acceptAll]⟩
  | cons r rest ih =>
    unfold acceptAll
    split
    · obtain ⟨t, ht⟩ := ih (buf ++ [r])
      exact ⟨r :: t, by rw [ht]; simp⟩
    · exact ⟨[], by simp⟩

theorem hexValueFrom_append (n : Nat) (xs : List Char) (c : Char) :
    hexValueFrom n (xs ++ [c]) = 16 * hexValueFrom n xs + hexDigitValue c := by
  induction xs generalizing n with
  | nil => rfl
  | cons x xs ih => exact ih _

theorem hexValueFrom_ge (n : Nat) (ds : List Char) : n ≤ hexValueFrom n ds := by
  induction ds generalizing n with
  | nil => exact Nat.le_refl _
  | cons c cs ih =>
    have := ih (16 * n + hexDigitValue c)
    unfold hexValueFrom
    omega

theorem parseUintLoop_digits (ds : List Char) (n : Nat)
    (hall : ∀ c ∈ ds, c ∈ hexDigitChars) (hlt : hexValueFrom n ds < 2 ^ 64) :
    parseUintLoop 16 ((2 ^ 64 - 1) / 16 + 1) (2 ^ 64 - 1) ds n = (hexValueFrom n ds, none) := by
  induction ds generalizing n with
  | nil => rfl
  | cons c cs ih =>
    obtain ⟨hd, hd16, -, -, -, -⟩ := hexDigit_facts c (hall c (List.mem_cons_self _ _))
    have hge := hexValueFrom_ge (16 * n + hexDigitValue c) cs
    have hlt2 : hexValueFrom (16 * n + hexDigitValue c) cs < 2 ^ 64 := hlt
    have hn : ¬ (n ≥ (2 ^ 64 - 1) / 16 + 1) := by omega
    have h16 : (n * 16) % 2 ^ 64 = 16 * n := by omega
    have h1 : (16 * n + hexDigitValue c) % 2 ^ 64 = 16 * n + hexDigitValue c := by omega
    have hno : ¬ (16 * n + hexDigitValue c < 16 * n ∨ 16 * n + hexDigitValue c > 2 ^ 64 - 1) := by
      omega
    unfold parseUintLoop
    simp only [hd, ge_iff_le, Nat.not_le.mpr hd16, if_false, hn, h16, h1, hno]
    exact ih _ (fun x hx => hall x (List.mem_cons_of_mem _ hx)) hlt2

theorem ParseUint_digits (ds : List Char) (hne : ds ≠ [])
    (hall : ∀ c ∈ ds, c ∈ hexDigitChars) (hlt : hexValue ds < 2 ^ 64) :
    ParseUint ds = (hexValue ds, none) := by
  unfold ParseUint
  rw [if_neg hne]
  exact parseUintLoop_digits ds 0 hall hlt

theorem hexDigit_not_sign : ∀ c ∈ hexDigitChars, c ≠ '+' ∧ c ≠ '-' := by
  decide

theorem ParseInt_unsigned (ds : List Char) (hne : ds ≠ [])
    (hall : ∀ c ∈ ds, c ∈ hexDigitChars) (hlt : hexValue ds < 2 ^ 63) :
    ParseInt ds = .ok (hexValue ds : Int) := by
  cases ds with
  | nil => exact absurd rfl hne
  | cons c cs =>
    obtain ⟨hp, hm⟩ := hexDigit_not_sign c (hall c (List.mem_cons_self _ _))
    have hu := ParseUint_digits (c :: cs) hne hall (by omega)
    have hw : wrapInt64 (hexValue (c :: cs) : Int) = (hexValue (c :: cs) : Int) :=
      wrapInt64_of_range _ (by omega)
    unfold ParseInt
    simp only [hp, hm, or_self, if_false, hu, decide_False, Bool.not_false, true_and,
      ge_iff_le, Bool.false_eq_true, false_and, hw]
    rw [if_neg (by omega)]

theorem ParseInt_minus (ds : List Char) (hne : ds ≠ [])
    (hall : ∀ c ∈ ds, c ∈ hexDigitChars) (hle : hexValue ds ≤ 2 ^ 63) :
    ParseInt ('-' :: ds) = .ok (-(hexValue ds : Int)) := by
  have hu := ParseUint_digits ds hne hall (by omega)
  have hw : wrapInt64 (-wrapInt64 (hexValue ds : Int)) = -(hexValue ds : Int) := by
    unfold wrapInt64
    omega
  unfold ParseInt
  simp only [or_true, if_true, hu, decide_True, Bool.not_true, Bool.false_eq_true, false_and,
    if_false, true_and, gt_iff_lt, hw]
  rw [if_neg (by omega)]

theorem doScanf_unsigned (ds rest : List Char) (hne : ds ≠ [])
    (hall : ∀ c ∈ ds, c ∈ hexDigitChars)
    (hrest : ∀ c tl, rest = c :: tl → c ∉ hexDigitChars) :
    doScanf ('0' :: 'x' :: (ds ++ rest)) = ParseInt ds := by
  cases ds with
  | nil => exact absurd rfl hne
  | cons d ds =>
    have hd := hall d (List.mem_cons_self _ _)
    have hsp : isSpace d = false := nonspace_facts d (List.mem_append_left _ hd)
    obtain ⟨-, -, hdig, hsg, -, -⟩ := hexDigit_facts d hd
    have hrest2 : ∀ c tl, rest = c :: tl → c ∉ hexadecimalDigits := fun c tl h hc =>
      hrest c tl h (hexadecimalDigits_sub c hc)
    have hacc := acceptAll_all hexadecimalDigits [d] ds rest
      (fun c hc => hexDigitChars_sub c (hall c (List.mem_cons_of_mem _ hc))) hrest2
    simp only [doScanf, advance, ne_eq, not_true_eq_false, if_false, List.cons_append,
      SkipSpace_nonspace d _ hsp, scanInt, accept, hsg, Bool.false_eq_true, scanNumber, hdig,
      if_true, List.nil_append, hacc]

theorem doScanf_minus (ds rest : List Char) (hne : ds ≠ [])
    (hall : ∀ c ∈ ds, c ∈ hexDigitChars)
    (hrest : ∀ c tl, rest = c :: tl → c ∉ hexDigitChars) :
    doScanf ('0' :: 'x' :: '-' :: (ds ++ rest)) = ParseInt ('-' :: ds) := by
  cases ds with
  | nil => exact absurd rfl hne
  | cons d ds =>
    have hd := hall d (List.mem_cons_self _ _)
    have hsp : isSpace '-' = false := by decide
    have hsg : sign.contains '-' = true := by decide
    obtain ⟨-, -, hdig, -, -, -⟩ := hexDigit_facts d hd
    have hrest2 : ∀ c tl, rest = c :: tl → c ∉ hexadecimalDigits := fun c tl h hc =>
      hrest c tl h (hexadecimalDigits_sub c hc)
    have hacc := acceptAll_all hexadecimalDigits ['-', d] ds rest
      (fun c hc => hexDigitChars_sub c (hall c (List.mem_cons_of_mem _ hc))) hrest2
    simp only [doScanf, advance, ne_eq, not_true_eq_false, if_false, List.cons_append,
      SkipSpace_nonspace '-' _ hsp, scanInt, accept, hsg, scanNumber, hdig,
      if_true, List.nil_append, hacc]

/-! ## The hex encoder -/

theorem fmtHex_acc (i u : Nat) (acc : List Char) :
    fmtHex i u acc = fmtHex i u [] ++ acc := by
  induction i generalizing u acc with
  | zero => rfl
  | succ i ih =>
    unfold fmtHex
    split
    · rw [ih (u / 16) (_ :: acc), ih (u / 16) [_]]
      simp
    · rfl

theorem fmtHex_step (i u : Nat) (h : u ≥ 16) :
    fmtHex (i + 1) u [] = fmtHex i (u / 16) [] ++ [ldigits.getD (u % 16) '0'] := by
  conv_lhs => unfold fmtHex
  rw [if_pos h, fmtHex_acc]

theorem fmtHex_small (i u : Nat) (h : u < 16) :
    fmtHex (i + 1) u [] = [ldigits.getD u '0'] := by
  conv_lhs => unfold fmtHex
  rw [if_neg (by omega)]

theorem ldigit_mem (k : Nat) (h : k < 16) :
    ldigits.getD k '0' ∈ hexDigitChars ∧ hexDigitValue (ldigits.getD k '0') = k ∧
    ldigits.getD k '0' = Nat.digitChar k :=
  ldigit_facts k (List.mem_range.mpr h)

/-- The digits written by `fmtHex` are hexadecimal digits, at least one and
at most as many as the buffer allows, and they denote the number written. -/
theorem fmtHex_spec (i u : Nat) (h : u < 16 ^ (i + 1)) :
    fmtHex (i + 1) u [] ≠ [] ∧ (∀ c ∈ fmtHex (i + 1) u [], c ∈ hexDigitChars) ∧
    hexValue (fmtHex (i + 1) u []) = u ∧ (fmtHex (i + 1) u []).length ≤ i + 1 := by
  induction i generalizing u with
  | zero =>
    have hu : u < 16 := by simpa using h
    obtain ⟨hm, hv, -⟩ := ldigit_mem u hu
    rw [fmtHex_small 0 u hu]
    refine ⟨by simp, ?_, ?_, by simp⟩
    · intro c hc
      rw [List.mem_singleton] at hc
      rw [hc]
      exact hm
    · show 16 * 0 + hexDigitValue (ldigits.getD u '0') = u
      rw [hv]
      omega
  | succ i ih =>
    by_cases hu : u < 16
    · obtain ⟨hm, hv, -⟩ := ldigit_mem u hu
      rw [fmtHex_small (i + 1) u hu]
      refine ⟨by simp, ?_, ?_, by simp⟩
      · intro c hc
        rw [List.mem_singleton] at hc
        rw [hc]
        exact hm
      · show 16 * 0 + hexDigitValue (ldigits.getD u '0') = u
        rw [hv]
        omega
    · have hdiv : u / 16 < 16 ^ (i + 1) := by
        rw [Nat.div_lt_iff_lt_mul (by decide)]
        rw [pow_succ] at h
        exact h
      obtain ⟨hne, hall, hval, hlen⟩ := ih (u / 16) hdiv
      obtain ⟨hm, hv, -⟩ := ldigit_mem (u % 16) (Nat.mod_lt _ (by decide))
      rw [fmtHex_step (i + 1) u (by omega)]
      refine ⟨by simp, ?_, ?_, ?_⟩
      · intro c hc
        rw [List.mem_append, List.mem_singleton] at hc
        rcases hc with hc | hc
        · exact hall c hc
        · rw [hc]
          exact hm
      · unfold hexValue at hval ⊢
        rw [hexValueFrom_append, hval, hv]
        omega
      · rw [List.length_append, List.length_singleton]
        omega

/-- The digits written by `fmtHex` are those of `Nat.toDigits 16`. -/
theorem fmtHex_eq_toDigitsCore (i fuel u : Nat) (acc : List Char)
    (h : u < 16 ^ (i + 1)) (hf : u < fuel) :
    fmtHex (i + 1) u acc = Nat.toDigitsCore 16 fuel u acc := by
  induction i generalizing u fuel acc with
  | zero =>
    have hu : u < 16 := by simpa using h
    obtain ⟨-, -, hd⟩ := ldigit_mem u hu
    cases fuel with
    | zero => omega
    | succ f =>
      unfold fmtHex Nat.toDigitsCore
      simp only [ge_iff_le, Nat.not_le.mpr hu, if_false, Nat.mod_eq_of_lt hu,
        Nat.div_eq_of_lt hu, if_true, hd]
  | succ i ih =>
    cases fuel with
    | zero => omega
    | succ f =>
      by_cases hu : u < 16
      · obtain ⟨-, -, hd⟩ := ldigit_mem u hu
        unfold fmtHex Nat.toDigitsCore
        simp only [ge_iff_le, Nat.not_le.mpr hu, if_false, Nat.mod_eq_of_lt hu,
          Nat.div_eq_of_lt hu, if_true, hd]
      · obtain ⟨-, -, hd⟩ := ldigit_mem (u % 16) (Nat.mod_lt _ (by decide))
        have hdiv : u / 16 < 16 ^ (i + 1) := by
          rw [Nat.div_lt_iff_lt_mul (by decide)]
          rw [pow_succ] at h
          exact h
        have hdiv0 : u / 16 ≠ 0 := by
          intro h0
          rw [Nat.div_eq_zero_iff (by decide)] at h0
          exact hu h0
        have hf2 : u / 16 < f := by omega
        conv_lhs => unfold fmtHex
        conv_rhs => unfold Nat.toDigitsCore
        simp only [ge_iff_le, Nat.le_of_not_lt hu, if_true, hdiv0, if_false, hd]
        exact ih f (u / 16) _ hdiv hf2

theorem fmtHex_spec64 (u : Nat) (h : u < 2 ^ 64) :
    fmtHex 68 u [] ≠ [] ∧ (∀ c ∈ fmtHex 68 u [], c ∈ hexDigitChars) ∧
    hexValue (fmtHex 68 u []) = u ∧ (fmtHex 68 u []).length ≤ 68 :=
  fmtHex_spec 67 u (by omega)

theorem fmtHex_eq_toDigits (u : Nat) (h : u < 2 ^ 64) :
    fmtHex 68 u [] = Nat.toDigits 16 u :=
  fmtHex_eq_toDigitsCore 67 (u + 1) u [] (by omega) (by omega)

theorem fmtInteger_nonneg (v : Int) (h0 : 0 ≤ v) (h : v < 2 ^ 63) :
    fmtInteger v = fmtHex 68 v.toNat [] := by
  have hu : (v % 2 ^ 64).toNat = v.toNat := by omega
  have hneg : ¬ (v < 0) := by omega
  simp only [fmtInteger, hu, hneg, decide_False, Bool.false_eq_true, if_false]

theorem fmtInteger_neg (v : Int) (h0 : v < 0) (h : -2 ^ 63 ≤ v) :
    fmtInteger v = '-' :: fmtHex 68 (-v).toNat [] := by
  have hu : (2 ^ 64 - (v % 2 ^ 64).toNat) % 2 ^ 64 = (-v).toNat := by omega
  simp only [fmtInteger, h0, decide_True, if_true, hu]

theorem Sscanf_Sprintf (n : Int) (hlo : -2 ^ 63 ≤ n) (hhi : n < 2 ^ 63) :
    Sscanf (Sprintf n) = .ok n := by
  by_cases h0 : 0 ≤ n
  · obtain ⟨hne, hall, hval, hlen⟩ := fmtHex_spec64 n.toNat (by omega)
    have htake : ('0' :: 'x' :: fmtHex 68 n.toNat []).take hugeWid =
        '0' :: 'x' :: (fmtHex 68 n.toNat [] ++ []) := by
      rw [List.append_nil]
      apply take_hugeWid_of_le
      simp only [List.length_cons, hugeWid]
      omega
    show doScanf (('0' :: 'x' :: fmtInteger n).take hugeWid) = .ok n
    rw [fmtInteger_nonneg n h0 hhi, htake,
      doScanf_unsigned _ [] hne hall (fun c tl h => by cases h),
      ParseInt_unsigned _ hne hall (by omega), hval]
    congr 1
    omega
  · obtain ⟨hne, hall, hval, hlen⟩ := fmtHex_spec64 (-n).toNat (by omega)
    have htake : ('0' :: 'x' :: '-' :: fmtHex 68 (-n).toNat []).take hugeWid =
        '0' :: 'x' :: '-' :: (fmtHex 68 (-n).toNat [] ++ []) := by
      rw [List.append_nil]
      apply take_hugeWid_of_le
      simp only [List.length_cons, hugeWid]
      omega
    show doScanf (('0' :: 'x' :: fmtInteger n).take hugeWid) = .ok n
    rw [fmtInteger_neg n (by omega) hlo, htake,
      doScanf_minus _ [] hne hall (fun c tl h => by cases h),
      ParseInt_minus _ hne hall (by omega), hval]
    congr 1
    omega

theorem Sprintf_eq_hexNumeral (v : Int) (hlo : -2 ^ 63 ≤ v) (hhi : v < 2 ^ 63) :
    Sprintf v = hexNumeral v := by
  unfold Sprintf hexNumeral
  by_cases h0 : 0 ≤ v
  · have hneg : ¬ (v < 0) := by omega
    have hn : v.natAbs = v.toNat := by omega
    rw [fmtInteger_nonneg v h0 hhi, fmtHex_eq_toDigits _ (by omega), if_neg hneg, hn]
    rfl
  · have hneg : v < 0 := by omega
    have hn : v.natAbs = (-v).toNat := by omega
    rw [fmtInteger_neg v hneg hlo, fmtHex_eq_toDigits _ (by omega), if_pos hneg, hn]
    rfl

theorem hexValue_pos (c : Char) (cs : List Char) (hc : c ∈ hexDigitChars) (h0 : c ≠ '0') :
    1 ≤ hexValue (c :: cs) := by
  obtain ⟨-, -, -, -, -, hz⟩ := hexDigit_facts c hc
  have hv : hexDigitValue c ≠ 0 := fun h => h0 (hz.mp h)
  have hge := hexValueFrom_ge (16 * 0 + hexDigitValue c) cs
  show 1 ≤ hexValueFrom (16 * 0 + hexDigitValue c) cs
  omega

theorem exists_snoc (ds : List Char) (hne : ds ≠ []) : ∃ L b, ds = L ++ [b] := by
  rcases List.eq_nil_or_concat ds with h | ⟨L, b, h⟩
  · exact absurd h hne
  · exact ⟨L, b, by rw [h, List.concat_eq_append]⟩

/-- On digits without a leading zero (a lone `0` apart) `fmtHex` writes the
digits back, letters in lower case. -/
theorem fmtHex_hexValue (i : Nat) (ds : List Char) (hne : ds ≠ [])
    (hall : ∀ c ∈ ds, c ∈ hexDigitChars)
    (hhead : ∀ c cs, ds = c :: cs → cs ≠ [] → c ≠ '0')
    (hlt : hexValue ds < 16 ^ (i + 1)) :
    fmtHex (i + 1) (hexValue ds) [] = ds.map Char.toLower := by
  induction i generalizing ds with
  | zero =>
    obtain ⟨L, b, h⟩ := exists_snoc ds hne
    · subst h
      have hb := hall b (by simp)
      obtain ⟨-, hb16, -, -, hlow, -⟩ := hexDigit_facts b hb
      have hv : hexValue (L ++ [b]) = 16 * hexValue L + hexDigitValue b :=
        hexValueFrom_append 0 L b
      cases L with
      | nil =>
        rw [hv]
        show fmtHex 1 (16 * 0 + hexDigitValue b) [] = [b.toLower]
        rw [fmtHex_small 0 _ (by omega), ← hlow]
        simp
      | cons c cs =>
        have hc0 := hhead c (cs ++ [b]) rfl (by simp)
        have hpos := hexValue_pos c cs (hall c (by simp)) hc0
        rw [hv] at hlt
        simp only [zero_add, pow_one] at hlt
        omega
  | succ i ih =>
    obtain ⟨L, b, h⟩ := exists_snoc ds hne
    · subst h
      have hb := hall b (by simp)
      obtain ⟨-, hb16, -, -, hlow, -⟩ := hexDigit_facts b hb
      have hv : hexValue (L ++ [b]) = 16 * hexValue L + hexDigitValue b :=
        hexValueFrom_append 0 L b
      cases L with
      | nil =>
        rw [hv]
        show fmtHex (i + 1 + 1) (16 * 0 + hexDigitValue b) [] = [b.toLower]
        rw [fmtHex_small (i + 1) _ (by omega), ← hlow]
        simp
      | cons c cs =>
        have hc0 := hhead c (cs ++ [b]) rfl (by simp)
        have hpos := hexValue_pos c cs (hall c (by simp)) hc0
        have hL : hexValue (c :: cs) < 16 ^ (i + 1) := by
          rw [hv, pow_succ] at hlt
          omega
        have hih := ih (c :: cs) (by simp) (fun x hx => hall x (by simp [List.mem_cons] at hx ⊢; tauto))
          (fun c2 cs2 h2 hne2 => hhead c2 (cs2 ++ [b]) (by rw [h2]; rfl) (by simp)) hL
        rw [hv, fmtHex_step (i + 1) _ (by omega)]
        have hdiv : (16 * hexValue (c :: cs) + hexDigitValue b) / 16 = hexValue (c :: cs) := by
          omega
        have hmod : (16 * hexValue (c :: cs) + hexDigitValue b) % 16 = hexDigitValue b := by
          omega
        rw [hdiv, hmod, hih, hlow]
        simp

theorem stripLeadingZeros_facts (ds : List Char) (hne : ds ≠ []) :
    stripLeadingZeros ds ≠ [] ∧ (∀ c ∈ stripLeadingZeros ds, c ∈ ds) ∧
    (∀ c cs, stripLeadingZeros ds = c :: cs → cs ≠ [] → c ≠ '0') ∧
    hexValue (stripLeadingZeros ds) = hexValue ds := by
  induction ds with
  | nil => exact absurd rfl hne
  | cons c cs ih =>
    cases cs with
    | nil =>
      refine ⟨by simp [stripLeadingZeros], fun x hx => hx, ?_, rfl⟩
      intro c2 cs2 h2 hne2
      simp only [stripLeadingZeros, List.cons.injEq] at h2
      exact absurd h2.2.symm hne2
    | cons d ds =>
      by_cases hc : c = '0'
      · obtain ⟨h1, h2, h3, h4⟩ := ih (by simp)
        have hs : stripLeadingZeros (c :: d :: ds) = stripLeadingZeros (d :: ds) := by
          simp [stripLeadingZeros, hc]
        rw [hs]
        refine ⟨h1, fun x hx => List.mem_cons_of_mem _ (h2 x hx), h3, ?_⟩
        rw [h4, hc]
        rfl
      · have hs : stripLeadingZeros (c :: d :: ds) = c :: d :: ds := by
          simp [stripLeadingZeros, hc]
        rw [hs]
        refine ⟨by simp, fun x hx => hx, ?_, rfl⟩
        intro c2 cs2 h2 _
        simp only [List.cons.injEq] at h2
        rw [← h2.1]
        exact hc

theorem advance_mem (format input out : List Char)
    (h : advance format input = .ok (some out)) : ∀ c ∈ out, c ∈ input := by
  induction format generalizing input with
  | nil =>
    simp only [advance, Except.ok.injEq, Option.some.injEq] at h
    subst h
    exact fun c hc => hc
  | cons f fs ih =>
    cases input with
    | nil => simp [advance] at h
    | cons a rest =>
      unfold advance at h
      simp only at h
      split at h
      · cases h
      · exact fun c hc => List.mem_cons_of_mem _ (ih rest h c hc)

theorem scanNumber_token (digits buf input tok : List Char)
    (h : scanNumber digits buf input = .ok tok) :
    ∃ d t, d ∈ digits ∧ tok = buf ++ d :: t := by
  cases input with
  | nil => simp [scanNumber] at h
  | cons r rest =>
    by_cases hr : digits.contains r = true
    · obtain ⟨t, ht⟩ := acceptAll_extends digits (buf ++ [r]) rest
      simp only [scanNumber, accept, hr, if_true, Except.ok.injEq] at h
      refine ⟨r, t, (contains_iff_mem digits r).mp hr, ?_⟩
      rw [← h, ht]
      simp
    · have hr2 : r ∉ digits := fun hmem => hr ((contains_iff_mem digits r).mpr hmem)
      simp [scanNumber, accept, hr2] at h

theorem ParseInt_nonneg (c : Char) (cs : List Char) (v : Int)
    (h : ParseInt (c :: cs) = .ok v) (hc : c ≠ '-') : 0 ≤ v := by
  unfold ParseInt at h
  simp only [hc, decide_False, Bool.not_false, true_and, Bool.false_eq_true, false_and,
    if_false] at h
  split at h
  · cases h
  · split at h
    · cases h
    · rename_i un _ _ hlt
      injection h with h
      rw [← h, wrapInt64_of_range _ (by omega)]
      omega

theorem scanInt_nonneg (input : List Char) (v : Int) (h : scanInt input = .ok v)
    (hm : '-' ∉ input) : 0 ≤ v := by
  unfold scanInt at h
  split at h
  · cases h
  · cases h
  · rename_i r rest hskip
    have hr : r ≠ '-' := fun hc =>
      hm (SkipSpace_mem input _ hskip '-' (by rw [hc]; exact List.mem_cons_self _ _))
    simp only at h
    split at h
    · cases h
    · rename_i tok htok
      by_cases hs : sign.contains r = true
      · simp only [accept, hs, if_true, List.nil_append] at htok
        obtain ⟨d, t, -, ht⟩ := scanNumber_token _ _ _ _ htok
        rw [ht] at h
        exact ParseInt_nonneg r _ v h hr
      · simp only [accept, hs, if_false, Bool.false_eq_true] at htok
        obtain ⟨d, t, hd, ht⟩ := scanNumber_token _ _ _ _ htok
        rw [ht] at h
        exact ParseInt_nonneg d _ v h (hexDigit_not_sign d (hexadecimalDigits_sub d hd)).2

theorem doScanf_nonneg (input : List Char) (v : Int) (h : doScanf input = .ok v)
    (hm : '-' ∉ input) : 0 ≤ v := by
  unfold doScanf at h
  split at h
  · cases h
  · cases h
  · rename_i i1 hadv
    split at h
    · cases h
    · rename_i i2 hskip
      apply scanInt_nonneg i2 v h
      intro hc
      exact hm (advance_mem _ _ _ hadv _ (SkipSpace_mem _ _ hskip _ hc))

theorem SkipSpace_dropWhile (input out : List Char) (h : SkipSpace input = .ok out) :
    out = input.dropWhile isSpace := by
  induction input with
  | nil =>
    simp only [SkipSpace, Except.ok.injEq] at h
    rw [← h]
    rfl
  | cons r rest ih =>
    unfold SkipSpace at h
    split at h
    · rename_i hcr
      have hsp : isSpace r = true := by rw [hcr.1]; exact isSpace_carriageReturn
      rw [List.dropWhile_cons_of_pos hsp]
      exact ih h
    · split at h
      · cases h
      · split at h
        · rename_i hsp
          injection h with h
          rw [← h, List.dropWhile_cons_of_neg (by simpa using hsp)]
        · rename_i hsp
          rw [List.dropWhile_cons_of_pos (by simpa using hsp)]
          exact ih h

theorem dropWhile_dropWhile (p : Char → Bool) (l : List Char) :
    (l.dropWhile p).dropWhile p = l.dropWhile p := by
  induction l with
  | nil => rfl
  | cons a l ih =>
    by_cases h : p a = true
    · rw [List.dropWhile_cons_of_pos h, ih]
    · rw [List.dropWhile_cons_of_neg h, List.dropWhile_cons_of_neg h]

theorem advance_0x (input out : List Char) (h : advance ['0', 'x'] input = .ok (some out)) :
    input = '0' :: 'x' :: out := by
  cases input with
  | nil => simp [advance] at h
  | cons a l =>
    by_cases ha : '0' = a
    · subst ha
      cases l with
      | nil => simp [advance] at h
      | cons b l2 =>
        by_cases hb : 'x' = b
        · subst hb
          simp only [advance, ne_eq, not_true_eq_false, if_false, Except.ok.injEq,
            Option.some.injEq] at h
          rw [h]
        · simp [advance, hb] at h
    · simp [advance, ha] at h

theorem scanNumber_head (digits buf input tok : List Char)
    (h : scanNumber digits buf input = .ok tok) :
    ∃ d t, input = d :: t ∧ d ∈ digits := by
  cases input with
  | nil => simp [scanNumber] at h
  | cons r rest =>
    by_cases hr : r ∈ digits
    · exact ⟨r, rest, rfl, hr⟩
    · simp [scanNumber, accept, hr] at h

theorem startsWithHexNumber_0x (rest : List Char) :
    startsWithHexNumber ('0' :: 'x' :: rest) = numberAhead (rest.dropWhile isSpace) := by
  simp [startsWithHexNumber]

theorem numberAhead_sign (c d : Char) (t : List Char) (h : c = '+' ∨ c = '-') :
    numberAhead (c :: d :: t) = decide (d ∈ hexDigitChars) := by
  simp only [numberAhead, h, if_true]

theorem numberAhead_sign_nil (c : Char) (h : c = '+' ∨ c = '-') :
    numberAhead [c] = false := by
  simp only [numberAhead, h, if_true]

theorem numberAhead_digit (c : Char) (tl : List Char) (h : ¬ (c = '+' ∨ c = '-')) :
    numberAhead (c :: tl) = decide (c ∈ hexDigitChars) := by
  simp only [numberAhead, h, if_false]

theorem startsWithHexNumber_shape (l : List Char) (h : startsWithHexNumber l = true) :
    ∃ rest, l = '0' :: 'x' :: rest := by
  unfold startsWithHexNumber at h
  split at h
  · exact ⟨_, rfl⟩
  · cases h

theorem doScanf_ok_shape (input : List Char) (v : Int) (h : doScanf input = .ok v) :
    startsWithHexNumber input = true := by
  unfold doScanf at h
  split at h
  · cases h
  · cases h
  · rename_i i1 hadv
    have hin := advance_0x _ _ hadv
    split at h
    · cases h
    · rename_i i2 hskip
      have hi2 := SkipSpace_dropWhile _ _ hskip
      unfold scanInt at h
      split at h
      · cases h
      · cases h
      · rename_i r rest2 hskip2
        have hd := SkipSpace_dropWhile _ _ hskip2
        rw [hi2, dropWhile_dropWhile] at hd
        simp only at h
        split at h
        · cases h
        · rename_i tok htok
          rw [hin, startsWithHexNumber_0x, ← hd]
          by_cases hs : r ∈ sign
          · have hr : r = '+' ∨ r = '-' := by
              simpa only [sign, List.mem_cons, List.mem_singleton, List.not_mem_nil,
                or_false] using hs
            have hc : sign.contains r = true := (contains_iff_mem sign r).mpr hs
            simp only [accept, hc, if_true] at htok
            obtain ⟨d, t, hrest, hdm⟩ := scanNumber_head _ _ _ _ htok
            rw [hrest, numberAhead_sign r d t hr]
            exact decide_eq_true (hexadecimalDigits_sub d hdm)
          · have hr : ¬ (r = '+' ∨ r = '-') := by
              simpa only [sign, List.mem_cons, List.mem_singleton, List.not_mem_nil,
                or_false] using hs
            have hc : ¬ (sign.contains r = true) := fun hcon => hs ((contains_iff_mem sign r).mp hcon)
            simp only [accept, hc, if_false] at htok
            obtain ⟨d, t, hrest, hdm⟩ := scanNumber_head _ _ _ _ htok
            injection hrest with hrd _
            rw [numberAhead_digit r rest2 hr, hrd]
            exact decide_eq_true (hexadecimalDigits_sub d hdm)

theorem dropWhile_take_head (p : Char → Bool) (n : Nat) (l : List Char) (c : Char)
    (tl : List Char) (h : (l.take n).dropWhile p = c :: tl) :
    ∃ tl2, l.dropWhile p = c :: tl2 ∧ ∀ d t, tl = d :: t → ∃ t2, tl2 = d :: t2 := by
  induction l generalizing n with
  | nil => simp at h
  | cons a l ih =>
    cases n with
    | zero => simp at h
    | succ n =>
      rw [List.take_succ_cons] at h
      by_cases hp : p a = true
      · rw [List.dropWhile_cons_of_pos hp] at h ⊢
        exact ih n h
      · rw [List.dropWhile_cons_of_neg hp] at h ⊢
        injection h with hc ht
        refine ⟨l, by rw [hc], ?_⟩
        intro d t hdt
        rw [hdt] at ht
        cases l with
        | nil => simp at ht
        | cons b l2 =>
          cases n with
          | zero => simp at ht
          | succ n =>
            rw [List.take_succ_cons] at ht
            injection ht with hb _
            exact ⟨l2, by rw [hb]⟩

theorem numberAhead_of_take (n : Nat) (l : List Char)
    (h : numberAhead ((l.take n).dropWhile isSpace) = true) :
    numberAhead (l.dropWhile isSpace) = true := by
  cases hdw : (l.take n).dropWhile isSpace with
  | nil =>
    rw [hdw] at h
    cases h
  | cons c tl =>
    obtain ⟨tl2, h2, h3⟩ := dropWhile_take_head isSpace n l c tl hdw
    rw [hdw] at h
    rw [h2]
    by_cases hc : c = '+' ∨ c = '-'
    · cases tl with
      | nil =>
        rw [numberAhead_sign_nil c hc] at h
        cases h
      | cons d t =>
        obtain ⟨t2, ht2⟩ := h3 d t rfl
        rw [numberAhead_sign c d t hc] at h
        rw [ht2, numberAhead_sign c d t2 hc]
        exact h
    · rw [numberAhead_digit c tl hc] at h
      rw [numberAhead_digit c tl2 hc]
      exact h

theorem startsWithHexNumber_of_take (n : Nat) (l : List Char)
    (h : startsWithHexNumber (l.take n) = true) : startsWithHexNumber l = true := by
  obtain ⟨rest, hrest⟩ := startsWithHexNumber_shape _ h
  have hl : ∃ rest2 m, l = '0' :: 'x' :: rest2 ∧ rest = rest2.take m := by
    cases l with
    | nil => simp at hrest
    | cons a l =>
      cases n with
      | zero => simp at hrest
      | succ n =>
        rw [List.take_succ_cons] at hrest
        injection hrest with ha hrest
        cases l with
        | nil => simp at hrest
        | cons b l =>
          cases n with
          | zero => simp at hrest
          | succ n =>
            rw [List.take_succ_cons] at hrest
            injection hrest with hb hrest
            exact ⟨l, n, by rw [ha, hb], hrest.symm⟩
  obtain ⟨rest2, m, hl, hm⟩ := hl
  rw [hrest, startsWithHexNumber_0x, hm] at h
  rw [hl, startsWithHexNumber_0x]
  exact numberAhead_of_take m rest2 h

/-! ## Encoding and decoding of heights -/

/-- C10: for every 64-bit signed integer `n`, decoding `Sprintf("0x%x", n)`
with `Sscanf("0x%x")` succeeds and returns `n`; hence in every JSON body of
`checkSync` (second sample `n`) the field `block_number_hex` decodes to the
field `block_number_decimal`. -/
theorem encode_then_decode (n : Int) (hlo : -2 ^ 63 ≤ n) (hhi : n < 2 ^ 63) :
    Sscanf (Sprintf n) = .ok n ∧
    ∀ world r h1, firstSample world r = .ok h1 → secondSample world r = .ok n →
      ∃ status, (serve world r).1.body = encode ⟨Sprintf n, n, status⟩ := by
  refine ⟨Sscanf_Sprintf n hlo hhi, ?_⟩
  intro world r h1 hf hs
  rw [serve_both_ok world r h1 n hf hs]
  exact ⟨_, rfl⟩

/-- C10 at the smallest `int64` and at 101. -/
theorem encode_then_decode_witness :
    Sscanf (Sprintf (-9223372036854775808)) = .ok (-9223372036854775808) ∧
    Sscanf (Sprintf 101) = .ok 101 :=
  ⟨(encode_then_decode (-9223372036854775808) (by decide) (by decide)).1,
   (encode_then_decode 101 (by decide) (by decide)).1⟩

/-- C7 fails as stated: a valid hex string of sixteen digits can exceed
`int64` and is then rejected, and upper-case digits come back in lower case. -/
theorem valid_hex_rejected_or_changed :
    Sscanf "0x8000000000000000" = .error .errRange ∧
    (Sscanf "0xFF" = .ok 255 ∧ Sprintf 255 = "0xff") := by
  decide

/-- C7 as amended: for every string `0x` + digits (one or more hexadecimal
digits of either case, leading zeros allowed, at most `hugeWid` = 2^30
characters in all) whose value is below 2^63, decoding succeeds with exactly
that value, and encoding the value gives `0x` followed by the digits without
their leading zeros, letters in lower case. -/
theorem decode_then_encode (ds : List Char) (hne : ds ≠ [])
    (hall : ∀ c ∈ ds, c ∈ hexDigitChars) (hval : hexValue ds < 2 ^ 63)
    (hlen : ds.length + 2 ≤ hugeWid) :
    Sscanf ⟨'0' :: 'x' :: ds⟩ = .ok (hexValue ds : Int) ∧
    Sprintf (hexValue ds : Int) = ⟨'0' :: 'x' :: (stripLeadingZeros ds).map Char.toLower⟩ := by
  constructor
  · have htake : ('0' :: 'x' :: ds).take hugeWid = '0' :: 'x' :: (ds ++ []) := by
      rw [List.append_nil]
      exact take_hugeWid_of_le _ (by simpa using hlen)
    show doScanf (('0' :: 'x' :: ds).take hugeWid) = .ok (hexValue ds : Int)
    rw [htake, doScanf_unsigned ds [] hne hall (fun c tl h => by cases h),
      ParseInt_unsigned ds hne hall hval]
  · obtain ⟨h1, h2, h3, h4⟩ := stripLeadingZeros_facts ds hne
    have hfmt := fmtHex_hexValue 67 (stripLeadingZeros ds) h1 (fun c hc => hall c (h2 c hc)) h3
      (by rw [h4]; omega)
    rw [h4] at hfmt
    unfold Sprintf
    rw [fmtInteger_nonneg _ (by omega) (by omega)]
    simp only [Int.toNat_ofNat]
    rw [hfmt]

/-- C7 as amended, at the string `0x00Ff`. -/
theorem decode_then_encode_witness :
    Sscanf "0x00Ff" = .ok 255 ∧ Sprintf 255 = "0xff" :=
  decode_then_encode ['0', '0', 'F', 'f'] (by decide) (by decide) (by decide) (by decide)

/-- C8 fails as stated: `0x64zz`, `0x-64` and `0x 64` hold a character that
is not a hexadecimal digit after the `0x`, and each is decoded without error. -/
theorem trailing_characters_accepted :
    Sscanf "0x64zz" = .ok 100 ∧ Sscanf "0x-64" = .ok (-100) ∧ Sscanf "0x 64" = .ok 100 ∧
    (getBlockNumber (nodeAnswering ["0x64zz"]) "" ⟨[], 0⟩).1 = .ok 100 := by
  decide

/-- C8 as amended: hex-decoding fails, and `getBlockNumber` returns an error,
for every `result` that does not begin with `0x`, and for every `result` in
which the `0x` is not followed, after any white space and at most one sign, by
a hexadecimal digit. -/
theorem decoding_fails (str : String) (h : startsWithHexNumber str.data = false) :
    (∃ e, Sscanf str = .error e) ∧
    ∀ (world : World) rpcURL fx code jsonrpc id,
      world fx.posts.length (if rpcURL = "" then defaultRPC else rpcURL) =
        .envelope code ⟨jsonrpc, id, str⟩ →
      ∃ e, (getBlockNumber world rpcURL fx).1 = .error (.scan e) := by
  have hscan : ∃ e, Sscanf str = .error e := by
    cases hs : Sscanf str with
    | error e => exact ⟨e, rfl⟩
    | ok v =>
      have := startsWithHexNumber_of_take hugeWid str.data (doScanf_ok_shape _ v hs)
      rw [h] at this
      cases this
  refine ⟨hscan, ?_⟩
  intro world rpcURL fx code jsonrpc id hw
  obtain ⟨e, he⟩ := hscan
  refine ⟨e, ?_⟩
  unfold getBlockNumber
  simp only [hw, he]

/-- C8 as amended, at `not_a_hex_number`, `64`, `0x` and `0xzz`. -/
theorem decoding_fails_witness :
    ((∃ e, Sscanf "not_a_hex_number" = .error e) ∧ (∃ e, Sscanf "64" = .error e)) ∧
    ((∃ e, Sscanf "0x" = .error e) ∧ (∃ e, Sscanf "0xzz" = .error e)) :=
  ⟨⟨(decoding_fails "not_a_hex_number" (by decide)).1, (decoding_fails "64" (by decide)).1⟩,
   ⟨(decoding_fails "0x" (by decide)).1, (decoding_fails "0xzz" (by decide)).1⟩⟩

/-- C9 fails as stated: the decoder accepts a sign, so the `result` `0x-1`
makes `getBlockNumber` return the height -1 without error. -/
theorem negative_height_returned :
    Sscanf "0x-1" = .ok (-1) ∧
    (getBlockNumber (nodeAnswering ["0x-1"]) "" ⟨[], 0⟩).1 = .ok (-1) := by
  decide

/-- C9 as amended: every value the hex decoder returns lies in the `int64`
range, and it is non-negative whenever the `result` holds no minus sign. -/
theorem decoded_height_bounds (str : String) (v : Int) (h : Sscanf str = .ok v) :
    (-2 ^ 63 ≤ v ∧ v < 2 ^ 63) ∧ ('-' ∉ str.data → 0 ≤ v) := by
  refine ⟨Sscanf_range str v h, ?_⟩
  intro hm
  exact doScanf_nonneg _ v h (fun hc => hm (List.mem_of_mem_take hc))

/-- C9 as amended, at the string `0x64`. -/
theorem decoded_height_bounds_witness :
    (-2 ^ 63 ≤ (100 : Int) ∧ (100 : Int) < 2 ^ 63) ∧ ('-' ∉ "0x64".data → 0 ≤ (100 : Int)) :=
  decoded_height_bounds "0x64" 100 (by decide)

/-! ## The fields of the JSON body -/

/-- C3 fails as stated for a negative second sample: after the results `0x0`
and `0x-1` the body carries `block_number_hex` = `0x-1`, which is not `0x`
followed by hexadecimal digits only. -/
theorem body_hex_of_negative_height :
    secondSample (nodeAnswering ["0x0", "0x-1"]) plainRequest = .ok (-1) ∧
    (serve (nodeAnswering ["0x0", "0x-1"]) plainRequest).1.body =
      "\x7b\"block_number_hex\":\"0x-1\",\"block_number_decimal\":-1,\"status\":\"synced\"\x7d\n" ∧
    Sprintf (-1) = "0x-1" ∧
    ¬ ∃ ds : List Char, (∀ c ∈ ds, c ∈ hexDigitChars) ∧ Sprintf (-1) = ⟨'0' :: 'x' :: ds⟩ := by
  refine ⟨by decide, by decide, by decide, ?_⟩
  rintro ⟨ds, hall, heq⟩
  have hds : ds = ['-', '1'] := by
    have h := congrArg String.data heq
    simp only [Sprintf] at h
    have h2 : fmtInteger (-1) = ['-', '1'] := by decide
    rw [h2] at h
    injection h with _ h
    injection h with _ h
    exact h.symm
  have hm := hall '-' (by rw [hds]; exact List.mem_cons_self _ _)
  revert hm
  decide

/-- C3 as amended: when both samples succeed with heights `h1` then `h2`, the
body is the encoding of `block_number_hex` = `0x`, a minus sign if `h2` is
negative, and the lowercase base-16 digits of the magnitude of `h2` without
leading zeros; `block_number_decimal` = `h2`; and the status of the verdict.
The first sample enters through the verdict only. -/
theorem body_fields (world : World) (r : Request) (h1 h2 : Int)
    (hfirst : firstSample world r = .ok h1) (hsecond : secondSample world r = .ok h2) :
    (serve world r).1.body =
      encode ⟨hexNumeral h2, h2, if h2 = h1 then "not_synced" else "synced"⟩ := by
  obtain ⟨hlo, hhi⟩ := getBlockNumber_range world _ _ h2 hsecond
  rw [serve_both_ok world r h1 h2 hfirst hsecond, Sprintf_eq_hexNumeral h2 hlo hhi]

/-- C3 as amended, at the two scenarios of the specification. -/
theorem body_fields_witness :
    (serve (nodeAnswering ["0x64", "0x65"]) plainRequest).1.body =
      "\x7b\"block_number_hex\":\"0x65\",\"block_number_decimal\":101,\"status\":\"synced\"\x7d\n" ∧
    (serve (nodeAnswering ["0x64", "0x64"]) plainRequest).1.body =
      "\x7b\"block_number_hex\":\"0x64\",\"block_number_decimal\":100,\"status\":\"not_synced\"\x7d\n" :=
  ⟨body_fields (nodeAnswering ["0x64", "0x65"]) plainRequest 100 101 (by decide) (by decide),
   body_fields (nodeAnswering ["0x64", "0x64"]) plainRequest 100 100 (by decide) (by decide)⟩

end L2MonETH
